import Mathlib

/-!
Verification development for the rocketsim-rs synchronization examples.

The live-sync loop of `examples/rlviser_socket.rs` is embedded as pure
functions over explicit state: the UDP inbound queue is a list of events
(queued datagrams, possibly with an injected receive fault, or an injected
peek fault), the simulation engine is an abstract state threaded through the
loop, and every `send_to` call is logged as a datagram (a list of bytes).
Machine bytes are naturals below 256 and 32-bit float fields are represented
by their bit patterns, naturals below 2^32, so that bit-identity is equality.
The standalone recording tool of `examples/dump_ball.rs` is embedded as a
function producing the byte list that the tool writes to its output file.
-/

set_option autoImplicit false

/-- An I/O error of the transport layer. `wouldBlock` marks the
would-block condition of a non-blocking receive finding nothing queued. -/
structure IOErr where
  wouldBlock : Bool
  code : Nat
deriving DecidableEq, Repr

/-- One event on the inbound socket queue: either a queued datagram
(`data` are its bytes; `recvErr` injects a failure into the `recv_from`
call that consumes it), or an injected failure of the non-blocking
`peek_from` call itself. -/
inductive InEvent where
  | dgram (data : List Nat) (recvErr : Option IOErr)
  | peekErr (e : IOErr)
deriving DecidableEq, Repr

/-- Receiving a datagram `src` into a fixed-size buffer `buf`: the first
`min src.length buf.length` bytes of `buf` are overwritten with the start of
`src`, the rest of `buf` keeps its previous contents. This is the semantics
of both `peek_from` and `recv_from` on a UDP socket. -/
def copyInto (buf src : List Nat) : List Nat :=
  src.take buf.length ++ buf.drop (min src.length buf.length)

/-- The drain loop inside `handle_return_message` (rlviser_socket.rs lines
126-145): repeatedly peek the next queued datagram into `min_state_set_buf`.
An empty queue (would-block) or a failing peek ends the loop (the `while let
Ok` pattern). A peeked length of exactly 1 is a handshake ping: the byte is
consumed into a scratch buffer and discarded. Any other peeked length takes
the override path: the read size is computed by `get_num_bytes` from the
peeked header, a zero-filled buffer of that size is allocated, and the
datagram is consumed into it, replacing any earlier override buffer.
Returns (state_set_buf, min_state_set_buf, remaining queue) on success and
the error of a failing `recv_from` (the `?` operator) otherwise. -/
def drainLoop (gnb : List Nat → Nat) :
    List InEvent → List Nat → List Nat → Except IOErr (List Nat × List Nat × List InEvent)
  | [], minBuf, ssb => .ok (ssb, minBuf, [])
  | .peekErr e :: rest, minBuf, ssb => .ok (ssb, minBuf, InEvent.peekErr e :: rest)
  | .dgram d re :: rest, minBuf, ssb =>
    match re with
    | some e => .error e
    | none =>
      let minBuf2 := copyInto minBuf d
      if min d.length minBuf.length = 1 then
        drainLoop gnb rest minBuf2 ssb
      else
        drainLoop gnb rest minBuf2 (copyInto (List.replicate (gnb minBuf2) 0) d)

/-- The operations the loop needs from the simulation engine and the byte
codec. The engine (`Arena`) and the codec (`GameState::to_bytes`,
`from_bytes`, `get_num_bytes`) live outside the embedded example sources, so
the loop is parametric in them: `E` is the engine state, `G` a decoded game
state. `set_game_state` returns `none` when the engine rejects the state
(the `Err` case of `Arena::set_game_state`). -/
structure SimApi (E G : Type) where
  step1 : E → E
  get_game_state : E → G
  to_bytes : G → List Nat
  from_bytes : List Nat → G
  set_game_state : E → G → Option E
  get_num_bytes : List Nat → Nat
  min_num_bytes : Nat

/-- Result of one pump invocation: the engine state afterwards, the
persistent `min_state_set_buf` contents, the log of `set_game_state`
invocations (their arguments, in order), and the inbound events left
queued. -/
structure PumpOut (E G : Type) where
  engine : E
  minBuf : List Nat
  setCalls : List G
  remaining : List InEvent
deriving DecidableEq, Repr

/-- `handle_return_message` (rlviser_socket.rs lines 119-159): drain the
queue; if the override buffer stayed empty, return with the engine
untouched; otherwise decode it and apply it with `set_game_state`, keeping
the prior engine state when the engine rejects it (the error is only
printed), and return success either way. -/
def handle_return_message {E G : Type} (api : SimApi E G) (queue : List InEvent)
    (minBuf : List Nat) (engine : E) : Except IOErr (PumpOut E G) :=
  match drainLoop api.get_num_bytes queue minBuf [] with
  | .error e => .error e
  | .ok (ssb, minBuf2, rem) =>
    if ssb.isEmpty then
      .ok ⟨engine, minBuf2, [], rem⟩
    else
      let gs := api.from_bytes ssb
      match api.set_game_state engine gs with
      | some engine2 => .ok ⟨engine2, minBuf2, [gs], rem⟩
      | none => .ok ⟨engine, minBuf2, [gs], rem⟩

/-- The outbound packet-type tags (rlviser_socket.rs lines 26-30,
`#[repr(u8)] enum UdpPacketTypes`). -/
inductive UdpPacketTypes where
  | Quit
  | GameState
deriving DecidableEq, Repr

/-- The `u8` value of a packet-type tag: `Quit` is declared first, so it is
0, and `GameState` is 1. -/
def UdpPacketTypes.toByte : UdpPacketTypes → Nat
  | .Quit => 0
  | .GameState => 1

/-- The external inputs of one main-loop iteration: whether the Ctrl+C
channel has a signal queued (`break_signal.try_recv().is_ok()`), the events
on the inbound socket queue, and injected results for the iteration's first
and second `send_to` calls (`none` means the send succeeds). -/
structure IterInput where
  interrupted : Bool
  inbound : List InEvent
  sendErr1 : Option IOErr
  sendErr2 : Option IOErr
deriving DecidableEq, Repr

/-- The state the loop threads between iterations: the engine and the
persistent `min_state_set_buf`. -/
structure LoopState (E : Type) where
  engine : E
  minBuf : List Nat
deriving DecidableEq, Repr

/-- Outcome of one loop iteration: `broke` = the loop exited with `Ok` (the
Quit path), `errored` = an I/O error was propagated with `?`, `next` = the
loop continues with a new state. Each carries the datagrams sent during the
iteration, in order. -/
inductive IterOut (E : Type) where
  | broke (sends : List (List Nat)) (engine : E)
  | errored (e : IOErr) (sends : List (List Nat))
  | next (sends : List (List Nat)) (s : LoopState E)
deriving DecidableEq, Repr

/-- One iteration of the loop body of `run_socket` (rlviser_socket.rs lines
88-116): check the interrupt flag first; when set, send the single-byte Quit
tag and break with success. Otherwise run the inbound pump, step the engine
one tick, read the new game state, and send the GameState tag byte followed
by the serialized payload as two datagrams. Any failing `send_to` or a pump
error propagates out. (The pacing sleep is modelled separately; it has no
effect on the data flow.) -/
def loopIter {E G : Type} (api : SimApi E G) (inp : IterInput) (s : LoopState E) :
    IterOut E :=
  if inp.interrupted then
    match inp.sendErr1 with
    | some e => .errored e []
    | none => .broke [[UdpPacketTypes.toByte .Quit]] s.engine
  else
    match handle_return_message api inp.inbound s.minBuf s.engine with
    | .error e => .errored e []
    | .ok p =>
      let engine2 := api.step1 p.engine
      let payload := api.to_bytes (api.get_game_state engine2)
      match inp.sendErr1 with
      | some e => .errored e []
      | none =>
        match inp.sendErr2 with
        | some e => .errored e [[UdpPacketTypes.toByte .GameState]]
        | none => .next [[UdpPacketTypes.toByte .GameState], payload] ⟨engine2, p.minBuf⟩

/-- Outcome of running the loop over a finite schedule of iteration inputs:
`ok` = broke gracefully (final engine state attached), `err` = an I/O error
propagated to the caller, `running` = the schedule was exhausted with the
loop still going. Each carries all datagrams sent, in order. -/
inductive RunOutcome (E : Type) where
  | ok (sends : List (List Nat)) (engine : E)
  | err (e : IOErr) (sends : List (List Nat))
  | running (sends : List (List Nat)) (s : LoopState E)
deriving DecidableEq, Repr

/-- Prepend the sends of an earlier iteration to a later outcome. -/
def mergeSends {E : Type} (out : List (List Nat)) : RunOutcome E → RunOutcome E
  | .ok o fin => .ok (out ++ o) fin
  | .err e o => .err e (out ++ o)
  | .running o st => .running (out ++ o) st

/-- The loop of `run_socket`, run over a finite schedule of per-iteration
external inputs. -/
def run_socket {E G : Type} (api : SimApi E G) :
    List IterInput → LoopState E → RunOutcome E
  | [], s => .running [] s
  | inp :: rest, s =>
    match loopIter api inp s with
    | .broke out eng => .ok out eng
    | .errored e out => .err e out
    | .next out s2 => mergeSends out (run_socket api rest s2)

/-- `main` binds the socket with `?` before entering `run_socket` (line 47):
a bind failure is propagated immediately, before any iteration runs. -/
def bindAndRun {E G : Type} (api : SimApi E G) (bindRes : Option IOErr)
    (sched : List IterInput) (s : LoopState E) : RunOutcome E :=
  match bindRes with
  | some e => .err e []
  | none => run_socket api sched s

/-- A small concrete engine/codec instance used to evaluate the loop on
concrete inputs: the engine is a tick counter, a game state is a natural,
serialization is a singleton list, decoding takes the length. -/
def natApi : SimApi Nat Nat where
  step1 := Nat.succ
  get_game_state := id
  to_bytes := fun n => [n]
  from_bytes := fun l => l.length
  set_game_state := fun _ g => some g
  get_num_bytes := fun l => l.length + 1
  min_num_bytes := 4

/-- Like `natApi` but with an engine that rejects every override:
`set_game_state` always returns `none`. -/
def rejectApi : SimApi Nat Nat where
  step1 := Nat.succ
  get_game_state := id
  to_bytes := fun n => [n]
  from_bytes := fun l => l.length
  set_game_state := fun _ _ => none
  get_num_bytes := fun l => l.length + 1
  min_num_bytes := 4

/-- The contents of `min_state_set_buf` after the peeks of a list of queued
events have written into it: each queued datagram overwrites its leading
bytes, a peek fault writes nothing. -/
def minBufAfter : List InEvent → List Nat → List Nat
  | [], mb => mb
  | .dgram d _ :: rest, mb => minBufAfter rest (copyInto mb d)
  | .peekErr _ :: rest, mb => minBufAfter rest mb

/-- The override buffer (`state_set_buf`) left by a fault-free drain of a
list of queued datagrams: ping datagrams (peeked length 1) leave it alone,
any other datagram replaces it with a zero-filled buffer sized by
`get_num_bytes` from the freshly peeked header, filled from the datagram. -/
def finalSsb (gnb : List Nat → Nat) : List InEvent → List Nat → List Nat → List Nat
  | [], _, ssb => ssb
  | .dgram d _ :: rest, mb, ssb =>
    let mb2 := copyInto mb d
    if min d.length mb.length = 1 then finalSsb gnb rest mb2 ssb
    else finalSsb gnb rest mb2 (copyInto (List.replicate (gnb mb2) 0) d)
  | .peekErr _ :: _, _, ssb => ssb

/-- The pacing interval of `run_socket` (rlviser_socket.rs line 83):
`1. / (120. * speed)`, with time idealized as rationals. -/
def interval (rate speed : ℚ) : ℚ := 1 / (rate * speed)

/-- The pacing clock state: the interval, fixed at setup, and the running
absolute deadline `next_time`. -/
structure Pacer where
  itv : ℚ
  next_time : ℚ
deriving DecidableEq

/-- Clock setup (line 84): `next_time = Instant::now() + interval`. -/
def pacerInit (now rate speed : ℚ) : Pacer :=
  ⟨interval rate speed, now + interval rate speed⟩

/-- `next_time - Instant::now()` (line 111): `Instant` subtraction
saturates at zero, so the wait is never negative, and the guard
`wait_time > Duration::default()` skips the sleep when it is zero. -/
def wait_time (p : Pacer) (now : ℚ) : ℚ := max (p.next_time - now) 0

/-- End of a tick (line 115): `next_time += interval`; the current time is
not consulted. -/
def pacerTick (p : Pacer) : Pacer := ⟨p.itv, p.next_time + p.itv⟩

/-- The clock after `n` ticks. -/
def pacerAfter : Nat → Pacer → Pacer
  | 0, p => p
  | n + 1, p => pacerAfter n (pacerTick p)

/-- A 3-component vector of 32-bit float fields, each represented by its
bit pattern (a natural below 2^32). -/
structure Vec3 where
  x : Nat
  y : Nat
  z : Nat
deriving DecidableEq, Repr

/-- The ball record: position, linear velocity, angular velocity
(rocketsim_rs `BallState` as used by the examples). -/
structure BallState where
  pos : Vec3
  vel : Vec3
  ang_vel : Vec3
deriving DecidableEq, Repr

/-- The four little-endian bytes of a 32-bit word. -/
def wordToBytes (w : Nat) : List Nat :=
  [w % 256, w / 256 % 256, w / 65536 % 256, w / 16777216 % 256]

/-- Little-endian serialization of a list of 32-bit words. -/
def wordsToBytes : List Nat → List Nat
  | [] => []
  | w :: ws => wordToBytes w ++ wordsToBytes ws

/-- Deserialize little-endian bytes back into 32-bit words, four bytes at a
time. -/
def bytesToWords : List Nat → List Nat
  | b0 :: b1 :: b2 :: b3 :: rest =>
    (b0 + 256 * b1 + 65536 * b2 + 16777216 * b3) :: bytesToWords rest
  | _ => []

/-- Modelled from the spec: the byte codec (`rocketsim_rs::bytes`) is not
among the embedded sources; per the spec a `BallState` encodes as position,
linear velocity and angular velocity, each three 32-bit floats, in fixed
field order, little-endian, with no padding. -/
def BallState.to_bytes (b : BallState) : List Nat :=
  wordsToBytes [b.pos.x, b.pos.y, b.pos.z, b.vel.x, b.vel.y, b.vel.z,
    b.ang_vel.x, b.ang_vel.y, b.ang_vel.z]

/-- Modelled from the spec: decoding a `BallState` is the exact inverse of
encoding, reading the nine 32-bit fields in the same fixed order. -/
def BallState.from_bytes (bytes : List Nat) : BallState :=
  match bytesToWords bytes with
  | [px, py, pz, vx, vy, vz, ax, ay, az] =>
    ⟨⟨px, py, pz⟩, ⟨vx, vy, vz⟩, ⟨ax, ay, az⟩⟩
  | _ => ⟨⟨0, 0, 0⟩, ⟨0, 0, 0⟩, ⟨0, 0, 0⟩⟩

/-- Modelled from the spec: an actor (car) state keyed by a caller-assigned
integer id, with the same three-vector physical fields as the ball. -/
structure CarInfo where
  id : Nat
  pos : Vec3
  vel : Vec3
  ang_vel : Vec3
deriving DecidableEq, Repr

/-- The ten 32-bit words of one car record: the id, then the physical
fields in fixed order. -/
def CarInfo.toWords (c : CarInfo) : List Nat :=
  [c.id, c.pos.x, c.pos.y, c.pos.z, c.vel.x, c.vel.y, c.vel.z,
    c.ang_vel.x, c.ang_vel.y, c.ang_vel.z]

/-- Modelled from the spec: a `GameState` snapshot combines the ball state
and zero or more car states keyed by integer id. -/
structure GameState where
  ball : BallState
  cars : List CarInfo
deriving DecidableEq, Repr

/-- Modelled from the spec: a `GameState` encodes as a fixed-size header
(here the car count as a 32-bit word, from which the total length is
computable) followed by the ball record and the car records, fixed field
order, little-endian. -/
def GameState.to_bytes (g : GameState) : List Nat :=
  wordToBytes g.cars.length ++ BallState.to_bytes g.ball ++
    wordsToBytes (g.cars.map CarInfo.toWords).flatten

/-- Read `n` car records of ten words each. -/
def decodeCars : Nat → List Nat → List CarInfo
  | 0, _ => []
  | n + 1, ws =>
    match ws with
    | cid :: px :: py :: pz :: vx :: vy :: vz :: ax :: ay :: az :: rest =>
      ⟨cid, ⟨px, py, pz⟩, ⟨vx, vy, vz⟩, ⟨ax, ay, az⟩⟩ :: decodeCars n rest
    | _ => []

/-- Modelled from the spec: `GameState` decoding is the exact inverse of
encoding — read the car count from the header, then the ball, then that
many car records. -/
def GameState.from_bytes (bytes : List Nat) : GameState :=
  match bytesToWords bytes with
  | n :: px :: py :: pz :: vx :: vy :: vz :: ax :: ay :: az :: rest =>
    ⟨⟨⟨px, py, pz⟩, ⟨vx, vy, vz⟩, ⟨ax, ay, az⟩⟩, decodeCars n rest⟩
  | _ => ⟨⟨⟨0, 0, 0⟩, ⟨0, 0, 0⟩, ⟨0, 0, 0⟩⟩, []⟩

/-- Every 32-bit field of the vector holds a valid bit pattern. -/
def Vec3.wf (v : Vec3) : Prop :=
  v.x < 4294967296 ∧ v.y < 4294967296 ∧ v.z < 4294967296

/-- Every field of the ball record holds a valid 32-bit pattern. -/
def BallState.wf (b : BallState) : Prop :=
  b.pos.wf ∧ b.vel.wf ∧ b.ang_vel.wf

/-- Every field of the car record holds a valid 32-bit pattern. -/
def CarInfo.wf (c : CarInfo) : Prop :=
  c.id < 4294967296 ∧ c.pos.wf ∧ c.vel.wf ∧ c.ang_vel.wf

/-- Every field of the snapshot holds a valid 32-bit pattern, including the
car count in the header. -/
def GameState.wf (g : GameState) : Prop :=
  g.ball.wf ∧ g.cars.length < 4294967296 ∧ ∀ c ∈ g.cars, c.wf

instance : DecidablePred Vec3.wf := fun v => by unfold Vec3.wf; infer_instance

instance : DecidablePred BallState.wf := fun b => by unfold BallState.wf; infer_instance

instance : DecidablePred CarInfo.wf := fun c => by unfold CarInfo.wf; infer_instance

instance : DecidablePred GameState.wf := fun g => by
  unfold GameState.wf
  exact instDecidableAnd

/-- The two little-endian bytes written by `write_u16::<LittleEndian>`. -/
def u16ToBytes (n : Nat) : List Nat := [n % 256, n / 256 % 256]

/-- `write_ball` (dump_ball.rs lines 10-22): one record of the recording
format — the time, then position, velocity and angular velocity, ten 32-bit
floats written little-endian with `write_f32::<LittleEndian>`. The time is
passed as its 32-bit pattern. -/
def write_ball (ball : BallState) (time : Nat) : List Nat :=
  wordsToBytes [time, ball.pos.x, ball.pos.y, ball.pos.z,
    ball.vel.x, ball.vel.y, ball.vel.z,
    ball.ang_vel.x, ball.ang_vel.y, ball.ang_vel.z]

/-- `const NUM_TICKS: u16 = 60` (dump_ball.rs line 8). -/
def NUM_TICKS : Nat := 60

/-- The bytes `main` of dump_ball.rs (lines 35-43) writes to the output
file: the record count `1 + NUM_TICKS` as a little-endian u16, then the
initial ball at time 0 (the bit pattern of `0.0f32` is 0), then one record
after each of the `NUM_TICKS` steps. The arena's evolution is external, so
the ball after `k` steps and the time bit pattern at step `k` are
parameters. -/
def dump_ball_file (ball : Nat → BallState) (time : Nat → Nat) : List Nat :=
  u16ToBytes (1 + NUM_TICKS) ++ write_ball (ball 0) 0 ++
    ((List.range NUM_TICKS).map fun k => write_ball (ball (k + 1)) (time (k + 1))).flatten

/-! Helper lemmas about the inbound pump. -/

theorem copyInto_length (buf src : List Nat) : (copyInto buf src).length = buf.length := by
  unfold copyInto
  rw [List.length_append, List.length_take, List.length_drop]
  omega

theorem minBufAfter_length (q : List InEvent) : ∀ mb : List Nat,
    (minBufAfter q mb).length = mb.length := by
  induction q with
  | nil => intro mb; rfl
  | cons ev rest ih =>
    intro mb
    cases ev with
    | dgram d re => rw [minBufAfter, ih (copyInto mb d), copyInto_length]
    | peekErr e => rw [minBufAfter, ih mb]

theorem drainLoop_noFault (gnb : List Nat → Nat) (q : List InEvent) :
    (∀ ev ∈ q, ∃ d, ev = InEvent.dgram d none) →
    ∀ mb ssb : List Nat,
      drainLoop gnb q mb ssb = .ok (finalSsb gnb q mb ssb, minBufAfter q mb, []) := by
  induction q with
  | nil => intro _ mb ssb; rfl
  | cons ev rest ih =>
    intro h mb ssb
    obtain ⟨d, rfl⟩ := h ev (List.mem_cons_self ev rest)
    have hrest := fun e2 he2 => h e2 (List.mem_cons_of_mem _ he2)
    by_cases hmin : min d.length mb.length = 1 <;>
      simp [drainLoop, finalSsb, minBufAfter, hmin, ih hrest]

theorem finalSsb_pings (gnb : List Nat → Nat) (L : Nat) (q : List InEvent) :
    (∀ ev ∈ q, ∃ d, ev = InEvent.dgram d none ∧ min d.length L = 1) →
    ∀ mb ssb : List Nat, mb.length = L → finalSsb gnb q mb ssb = ssb := by
  induction q with
  | nil => intro _ mb ssb _; rfl
  | cons ev rest ih =>
    intro h mb ssb hL
    obtain ⟨d, rfl, hping⟩ := h ev (List.mem_cons_self ev rest)
    have hrest := fun e2 he2 => h e2 (List.mem_cons_of_mem _ he2)
    have hmin : min d.length mb.length = 1 := by rw [hL]; exact hping
    simp only [finalSsb, hmin, if_pos]
    exact ih hrest (copyInto mb d) ssb (by rw [copyInto_length, hL])

theorem finalSsb_last (gnb : List Nat → Nat) (L : Nat) (d : List Nat) (post : List InEvent)
    (hpost : ∀ ev ∈ post, ∃ dd, ev = InEvent.dgram dd none ∧ min dd.length L = 1) :
    ∀ pre : List InEvent, (∀ ev ∈ pre, ∃ dd, ev = InEvent.dgram dd none) →
    ∀ mb ssb : List Nat, mb.length = L → min d.length L ≠ 1 →
      finalSsb gnb (pre ++ InEvent.dgram d none :: post) mb ssb =
        copyInto (List.replicate (gnb (copyInto (minBufAfter pre mb) d)) 0) d := by
  intro pre
  induction pre with
  | nil =>
    intro _ mb ssb hL hmin
    have hm : ¬ min d.length mb.length = 1 := by rw [hL]; exact hmin
    simp only [List.nil_append, finalSsb, hm, if_neg, minBufAfter]
    exact finalSsb_pings gnb L post hpost (copyInto mb d) _ (by rw [copyInto_length, hL])
  | cons ev rest ih =>
    intro hpre mb ssb hL hmin
    obtain ⟨dd, rfl⟩ := hpre ev (List.mem_cons_self ev rest)
    have hrest := fun e2 he2 => hpre e2 (List.mem_cons_of_mem _ he2)
    have hres : ∀ ssb2, finalSsb gnb (rest ++ InEvent.dgram d none :: post) (copyInto mb dd) ssb2 =
        copyInto (List.replicate (gnb (copyInto (minBufAfter rest (copyInto mb dd)) d)) 0) d :=
      fun ssb2 => ih hrest (copyInto mb dd) ssb2 (by rw [copyInto_length, hL]) hmin
    by_cases hm : min dd.length mb.length = 1 <;>
      simp [finalSsb, minBufAfter, hm, hres]

/-- C1: when at least one override datagram (peeked length not 1) is queued
before one pump invocation, the pump drains the whole queue, `set_game_state`
is invoked exactly once, with the decode of the buffer read for the
last-queued override datagram — earlier overrides in the same drain are
consumed but never applied — and when only handshake pings (or nothing) are
queued, the pump leaves the engine state untouched and applies nothing. -/
theorem claim_C1_drain_to_last {E G : Type} (api : SimApi E G)
    (hpos : ∀ b, 0 < api.get_num_bytes b)
    (pre post : List InEvent) (d minBuf : List Nat) (engine : E)
    (hpre : ∀ ev ∈ pre, ∃ dd, ev = InEvent.dgram dd none)
    (hpost : ∀ ev ∈ post, ∃ dd, ev = InEvent.dgram dd none ∧ min dd.length minBuf.length = 1)
    (hd : min d.length minBuf.length ≠ 1) :
    (∃ eFin, handle_return_message api (pre ++ InEvent.dgram d none :: post) minBuf engine =
      .ok ⟨eFin, minBufAfter (pre ++ InEvent.dgram d none :: post) minBuf,
        [api.from_bytes (copyInto
          (List.replicate (api.get_num_bytes (copyInto (minBufAfter pre minBuf) d)) 0) d)], []⟩) ∧
    ∀ (queue : List InEvent) (engine2 : E),
      (∀ ev ∈ queue, ∃ dd, ev = InEvent.dgram dd none ∧ min dd.length minBuf.length = 1) →
      handle_return_message api queue minBuf engine2 =
        .ok ⟨engine2, minBufAfter queue minBuf, [], []⟩ := by
  constructor
  · have hall : ∀ ev ∈ pre ++ InEvent.dgram d none :: post, ∃ dd, ev = InEvent.dgram dd none := by
      intro ev hev
      rcases List.mem_append.1 hev with h1 | h2
      · exact hpre ev h1
      · rcases List.mem_cons.1 h2 with rfl | h3
        · exact ⟨d, rfl⟩
        · obtain ⟨dd, h4, _⟩ := hpost ev h3
          exact ⟨dd, h4⟩
    have hssb := finalSsb_last api.get_num_bytes minBuf.length d post hpost pre hpre minBuf [] rfl hd
    have hdrain := drainLoop_noFault api.get_num_bytes _ hall minBuf []
    rw [hssb] at hdrain
    set S := copyInto (List.replicate (api.get_num_bytes (copyInto (minBufAfter pre minBuf) d)) 0) d
      with hS
    have hSlen : S.length = api.get_num_bytes (copyInto (minBufAfter pre minBuf) d) := by
      rw [hS, copyInto_length, List.length_replicate]
    have hne : S.isEmpty = false := by
      have hp := hpos (copyInto (minBufAfter pre minBuf) d)
      cases hSc : S with
      | nil => rw [hSc] at hSlen; simp at hSlen; omega
      | cons a l => rfl
    unfold handle_return_message
    rw [hdrain]
    simp only [hne, Bool.false_eq_true, if_false]
    cases hset : api.set_game_state engine (api.from_bytes S) with
    | some e2 => exact ⟨e2, rfl⟩
    | none => exact ⟨engine, rfl⟩
  · intro queue engine2 hq
    have hall : ∀ ev ∈ queue, ∃ dd, ev = InEvent.dgram dd none := by
      intro ev hev
      obtain ⟨dd, h1, _⟩ := hq ev hev
      exact ⟨dd, h1⟩
    have hdrain := drainLoop_noFault api.get_num_bytes queue hall minBuf []
    rw [finalSsb_pings api.get_num_bytes minBuf.length queue hq minBuf [] rfl] at hdrain
    unfold handle_return_message
    rw [hdrain]
    rfl

theorem claim_C1_witness :
    (∃ eFin, handle_return_message natApi
        ([] ++ InEvent.dgram [5, 6, 7] none :: [InEvent.dgram [9] none]) [0, 0, 0, 0] 0 =
      .ok ⟨eFin,
        minBufAfter ([] ++ InEvent.dgram [5, 6, 7] none :: [InEvent.dgram [9] none]) [0, 0, 0, 0],
        [natApi.from_bytes (copyInto (List.replicate (natApi.get_num_bytes
          (copyInto (minBufAfter [] [0, 0, 0, 0]) [5, 6, 7])) 0) [5, 6, 7])], []⟩) ∧
    handle_return_message natApi [InEvent.dgram [8] none] [0, 0, 0, 0] 0 =
      .ok ⟨0, minBufAfter [InEvent.dgram [8] none] [0, 0, 0, 0], [], []⟩ :=
  have h := claim_C1_drain_to_last natApi (fun b => Nat.succ_pos b.length)
    [] [InEvent.dgram [9] none] [5, 6, 7] [0, 0, 0, 0] 0
    (by intro ev hev; simp at hev)
    (by intro ev hev; simp at hev; subst hev; exact ⟨[9], rfl, rfl⟩)
    (by decide)
  ⟨h.1, h.2 [InEvent.dgram [8] none] 0
    (by intro ev hev; simp at hev; subst hev; exact ⟨[8], rfl, rfl⟩)⟩

/-! Helper lemmas about the loop. -/

theorem mergeSends_mergeSends {E : Type} (a b : List (List Nat)) (r : RunOutcome E) :
    mergeSends a (mergeSends b r) = mergeSends (a ++ b) r := by
  cases r <;> simp [mergeSends]

theorem run_socket_cons {E G : Type} (api : SimApi E G) (inp : IterInput)
    (rest : List IterInput) (s : LoopState E) :
    run_socket api (inp :: rest) s =
      match loopIter api inp s with
      | .broke out eng => .ok out eng
      | .errored e out => .err e out
      | .next out s2 => mergeSends out (run_socket api rest s2) := rfl

theorem run_socket_append {E G : Type} (api : SimApi E G) (a : List IterInput) :
    ∀ (b : List IterInput) (s s2 : LoopState E) (out : List (List Nat)),
      run_socket api a s = .running out s2 →
      run_socket api (a ++ b) s = mergeSends out (run_socket api b s2) := by
  induction a with
  | nil =>
    intro b s s2 out h
    simp only [run_socket, RunOutcome.running.injEq] at h
    obtain ⟨rfl, rfl⟩ := h
    cases hr : run_socket api b s <;> simp [mergeSends, hr]
  | cons inp rest ih =>
    intro b s s2 out h
    rw [run_socket_cons] at h
    split at h
    · cases h
    · cases h
    · rename_i o s3 hli
      cases hr : run_socket api rest s3 with
      | ok o2 fin => rw [hr] at h; simp [mergeSends] at h
      | err e o2 => rw [hr] at h; simp [mergeSends] at h
      | running o2 st =>
        rw [hr] at h
        simp only [mergeSends, RunOutcome.running.injEq] at h
        obtain ⟨rfl, rfl⟩ := h
        show run_socket api (inp :: (rest ++ b)) s = _
        rw [run_socket_cons, hli]
        show mergeSends o (run_socket api (rest ++ b) s3) = _
        rw [ih b s3 st o2 hr, mergeSends_mergeSends]

/-- C2: when the interrupt flag is observed set at the top of a loop
iteration (after any prefix of completed iterations), the loop sends exactly
one Quit datagram (the single tag byte 0) and nothing else — in particular
no further GameState datagram — performs no simulation work in that
iteration (the final engine state is the state at the top of the
iteration), and returns success. -/
theorem claim_C2_shutdown {E G : Type} (api : SimApi E G) (pre : List IterInput)
    (inp : IterInput) (rest : List IterInput) (s s2 : LoopState E) (out : List (List Nat))
    (hpre : run_socket api pre s = .running out s2)
    (hflag : inp.interrupted = true) (hsend : inp.sendErr1 = none) :
    run_socket api (pre ++ inp :: rest) s =
      .ok (out ++ [[UdpPacketTypes.toByte .Quit]]) s2.engine := by
  rw [run_socket_append api pre (inp :: rest) s s2 out hpre]
  have hq : loopIter api inp s2 = .broke [[UdpPacketTypes.toByte .Quit]] s2.engine := by
    simp [loopIter, hflag, hsend]
  rw [run_socket_cons, hq]
  rfl

theorem claim_C2_witness :
    run_socket natApi
      ([⟨false, [], none, none⟩] ++ ⟨true, [], none, none⟩ :: [⟨false, [], none, none⟩])
      ⟨0, [0, 0, 0, 0]⟩ =
    .ok ([[1], [1]] ++ [[UdpPacketTypes.toByte .Quit]])
      ((⟨1, [0, 0, 0, 0]⟩ : LoopState Nat)).engine :=
  claim_C2_shutdown natApi [⟨false, [], none, none⟩] ⟨true, [], none, none⟩
    [⟨false, [], none, none⟩] ⟨0, [0, 0, 0, 0]⟩ ⟨1, [0, 0, 0, 0]⟩ [[1], [1]] rfl rfl rfl

/-- C9: an uninterrupted error-free iteration sends exactly two sequential
datagrams — the 1-byte GameState tag, then the serialized snapshot of the
engine state after this tick's step, so exactly one GameState message per
tick — while the interrupt path sends the 1-byte Quit tag alone (Quit
carries no payload); the tag bytes are 0 for Quit and 1 for GameState. -/
theorem claim_C9_outbound {E G : Type} (api : SimApi E G) :
    (∀ (inp : IterInput) (s : LoopState E) (p : PumpOut E G),
      inp.interrupted = false → inp.sendErr1 = none → inp.sendErr2 = none →
      handle_return_message api inp.inbound s.minBuf s.engine = .ok p →
      loopIter api inp s = .next
        [[UdpPacketTypes.toByte .GameState],
         api.to_bytes (api.get_game_state (api.step1 p.engine))]
        ⟨api.step1 p.engine, p.minBuf⟩) ∧
    (∀ (inp : IterInput) (s : LoopState E), inp.interrupted = true → inp.sendErr1 = none →
      loopIter api inp s = .broke [[UdpPacketTypes.toByte .Quit]] s.engine) ∧
    UdpPacketTypes.toByte .Quit = 0 ∧ UdpPacketTypes.toByte .GameState = 1 := by
  refine ⟨?_, ?_, rfl, rfl⟩
  · intro inp s p hflag hs1 hs2 hp
    simp [loopIter, hflag, hs1, hs2, hp]
  · intro inp s hflag hs1
    simp [loopIter, hflag, hs1]

theorem claim_C9_witness :
    loopIter natApi ⟨false, [], none, none⟩ ⟨0, [0, 0, 0, 0]⟩ = .next
      [[UdpPacketTypes.toByte .GameState],
       natApi.to_bytes (natApi.get_game_state (natApi.step1 0))]
      ⟨natApi.step1 0, [0, 0, 0, 0]⟩ ∧
    loopIter natApi ⟨true, [], none, none⟩ ⟨0, [0, 0, 0, 0]⟩ =
      .broke [[UdpPacketTypes.toByte .Quit]] ((⟨0, [0, 0, 0, 0]⟩ : LoopState Nat)).engine :=
  ⟨(claim_C9_outbound natApi).1 ⟨false, [], none, none⟩ ⟨0, [0, 0, 0, 0]⟩
      ⟨0, [0, 0, 0, 0], [], []⟩ rfl rfl rfl rfl,
   (claim_C9_outbound natApi).2.1 ⟨true, [], none, none⟩ ⟨0, [0, 0, 0, 0]⟩ rfl rfl⟩

/-- C6: when the engine rejects an applied override (`set_game_state`
returns an error), the pump still returns success, the engine's prior state
is kept, the rejected decode is the one set call that was attempted, and the
loop iteration continues into the next tick rather than aborting. -/
theorem claim_C6_rejection {E G : Type} (api : SimApi E G) :
    (∀ (queue : List InEvent) (minBuf ssb mb2 : List Nat) (rem : List InEvent) (engine : E),
      drainLoop api.get_num_bytes queue minBuf [] = .ok (ssb, mb2, rem) → ssb ≠ [] →
      api.set_game_state engine (api.from_bytes ssb) = none →
      handle_return_message api queue minBuf engine =
        .ok ⟨engine, mb2, [api.from_bytes ssb], rem⟩) ∧
    (∀ (inp : IterInput) (s : LoopState E) (p : PumpOut E G),
      inp.interrupted = false → inp.sendErr1 = none → inp.sendErr2 = none →
      handle_return_message api inp.inbound s.minBuf s.engine = .ok p →
      ∃ o s2, loopIter api inp s = IterOut.next o s2) := by
  constructor
  · intro queue minBuf ssb mb2 rem engine hdrain hne hrej
    unfold handle_return_message
    rw [hdrain]
    have hie : ssb.isEmpty = false := by
      cases ssb with
      | nil => exact absurd rfl hne
      | cons a l => rfl
    simp [hie, hrej]
  · intro inp s p h1 h2 h3 hp
    exact ⟨[[UdpPacketTypes.toByte .GameState],
        api.to_bytes (api.get_game_state (api.step1 p.engine))],
      ⟨api.step1 p.engine, p.minBuf⟩, by simp [loopIter, h1, h2, h3, hp]⟩

theorem claim_C6_witness :
    handle_return_message rejectApi [InEvent.dgram [5, 6, 7] none] [0, 0, 0, 0] 0 =
      .ok ⟨0, [5, 6, 7, 0], [rejectApi.from_bytes [5, 6, 7, 0, 0]], []⟩ ∧
    ∃ o s2, loopIter rejectApi ⟨false, [], none, none⟩ ⟨0, [0, 0, 0, 0]⟩ = IterOut.next o s2 :=
  ⟨(claim_C6_rejection rejectApi).1 [InEvent.dgram [5, 6, 7] none] [0, 0, 0, 0]
      [5, 6, 7, 0, 0] [5, 6, 7, 0] [] 0 rfl (by decide) rfl,
   (claim_C6_rejection rejectApi).2 ⟨false, [], none, none⟩ ⟨0, [0, 0, 0, 0]⟩
      ⟨0, [0, 0, 0, 0], [], []⟩ rfl rfl rfl rfl⟩

/-- C5 counterexample: a failure of the non-blocking peek whose
`wouldBlock` flag is false (a genuine transport error, here error code 7)
is NOT propagated: the `while let Ok` pattern of the drain loop swallows it,
and the pump returns success with the engine untouched — contradicting the
claim that every receive-path failure other than would-block is propagated
to the caller. -/
theorem claim_C5_counterexample :
    (IOErr.mk false 7).wouldBlock = false ∧
    handle_return_message natApi [InEvent.peekErr ⟨false, 7⟩] [0, 0, 0, 0] 0 =
      .ok ⟨0, [0, 0, 0, 0], [], [InEvent.peekErr ⟨false, 7⟩]⟩ ∧
    ∀ e : IOErr, handle_return_message natApi [InEvent.peekErr ⟨false, 7⟩] [0, 0, 0, 0] 0 ≠
      .error e :=
  ⟨rfl, rfl, fun _ h => nomatch h⟩

/-- C5 (amended): bind failures, send failures, and failures of the
consuming `recv_from` are propagated to the caller and terminate the run;
a failure of the non-blocking `peek_from`, however — would-block or not —
is not propagated: it merely ends that tick's drain and the pump returns
success. -/
theorem claim_C5_amended {E G : Type} (api : SimApi E G) :
    (∀ (e : IOErr) (sched : List IterInput) (s : LoopState E),
      bindAndRun api (some e) sched s = .err e []) ∧
    (∀ (d : List Nat) (oe : IOErr) (rest : List InEvent) (mb ssb : List Nat),
      drainLoop api.get_num_bytes (InEvent.dgram d (some oe) :: rest) mb ssb = .error oe) ∧
    (∀ (queue : List InEvent) (mb : List Nat) (engine : E) (e : IOErr),
      drainLoop api.get_num_bytes queue mb [] = .error e →
      handle_return_message api queue mb engine = .error e) ∧
    (∀ (inp : IterInput) (s : LoopState E) (e : IOErr),
      inp.interrupted = true → inp.sendErr1 = some e →
      loopIter api inp s = .errored e []) ∧
    (∀ (inp : IterInput) (s : LoopState E) (p : PumpOut E G) (e : IOErr),
      inp.interrupted = false → inp.sendErr1 = some e →
      handle_return_message api inp.inbound s.minBuf s.engine = .ok p →
      loopIter api inp s = .errored e []) ∧
    (∀ (inp : IterInput) (s : LoopState E) (p : PumpOut E G) (e : IOErr),
      inp.interrupted = false → inp.sendErr1 = none → inp.sendErr2 = some e →
      handle_return_message api inp.inbound s.minBuf s.engine = .ok p →
      loopIter api inp s = .errored e [[UdpPacketTypes.toByte .GameState]]) ∧
    (∀ (inp : IterInput) (rest : List IterInput) (s : LoopState E) (e : IOErr)
      (out : List (List Nat)),
      loopIter api inp s = .errored e out →
      run_socket api (inp :: rest) s = .err e out) ∧
    (∀ (e : IOErr) (rest : List InEvent) (mb ssb : List Nat),
      drainLoop api.get_num_bytes (InEvent.peekErr e :: rest) mb ssb =
        .ok (ssb, mb, InEvent.peekErr e :: rest)) := by
  refine ⟨fun e sched s => rfl, fun d oe rest mb ssb => rfl, ?_, ?_, ?_, ?_, ?_,
    fun e rest mb ssb => rfl⟩
  · intro queue mb engine e hd
    unfold handle_return_message
    rw [hd]
  · intro inp s e hflag hs1
    simp [loopIter, hflag, hs1]
  · intro inp s p e hflag hs1 hp
    simp [loopIter, hflag, hs1, hp]
  · intro inp s p e hflag hs1 hs2 hp
    simp [loopIter, hflag, hs1, hs2, hp]
  · intro inp rest s e out hli
    rw [run_socket_cons, hli]

theorem claim_C5_amended_witness :
    bindAndRun natApi (some ⟨false, 3⟩) [] ⟨0, [0, 0, 0, 0]⟩ = .err ⟨false, 3⟩ [] ∧
    drainLoop natApi.get_num_bytes [InEvent.dgram [4, 4] (some ⟨false, 5⟩)] [0, 0, 0, 0] [] =
      .error ⟨false, 5⟩ ∧
    handle_return_message natApi [InEvent.dgram [4, 4] (some ⟨false, 5⟩)] [0, 0, 0, 0] 0 =
      .error ⟨false, 5⟩ ∧
    loopIter natApi ⟨true, [], some ⟨false, 9⟩, none⟩ ⟨0, [0, 0, 0, 0]⟩ =
      .errored ⟨false, 9⟩ [] ∧
    loopIter natApi ⟨false, [], some ⟨false, 9⟩, none⟩ ⟨0, [0, 0, 0, 0]⟩ =
      .errored ⟨false, 9⟩ [] ∧
    loopIter natApi ⟨false, [], none, some ⟨false, 9⟩⟩ ⟨0, [0, 0, 0, 0]⟩ =
      .errored ⟨false, 9⟩ [[UdpPacketTypes.toByte .GameState]] ∧
    run_socket natApi [⟨false, [], some ⟨false, 9⟩, none⟩] ⟨0, [0, 0, 0, 0]⟩ =
      .err ⟨false, 9⟩ [] ∧
    drainLoop natApi.get_num_bytes [InEvent.peekErr ⟨false, 2⟩] [0, 0, 0, 0] [] =
      .ok ([], [0, 0, 0, 0], [InEvent.peekErr ⟨false, 2⟩]) :=
  have h := claim_C5_amended natApi
  ⟨h.1 ⟨false, 3⟩ [] ⟨0, [0, 0, 0, 0]⟩,
   h.2.1 [4, 4] ⟨false, 5⟩ [] [0, 0, 0, 0] [],
   h.2.2.1 [InEvent.dgram [4, 4] (some ⟨false, 5⟩)] [0, 0, 0, 0] 0 ⟨false, 5⟩ rfl,
   h.2.2.2.1 ⟨true, [], some ⟨false, 9⟩, none⟩ ⟨0, [0, 0, 0, 0]⟩ ⟨false, 9⟩ rfl rfl,
   h.2.2.2.2.1 ⟨false, [], some ⟨false, 9⟩, none⟩ ⟨0, [0, 0, 0, 0]⟩
     ⟨0, [0, 0, 0, 0], [], []⟩ ⟨false, 9⟩ rfl rfl rfl,
   h.2.2.2.2.2.1 ⟨false, [], none, some ⟨false, 9⟩⟩ ⟨0, [0, 0, 0, 0]⟩
     ⟨0, [0, 0, 0, 0], [], []⟩ ⟨false, 9⟩ rfl rfl rfl rfl,
   h.2.2.2.2.2.2.1 ⟨false, [], some ⟨false, 9⟩, none⟩ [] ⟨0, [0, 0, 0, 0]⟩ ⟨false, 9⟩ []
     (by simp [loopIter, handle_return_message, drainLoop]),
   h.2.2.2.2.2.2.2 ⟨false, 2⟩ [] [0, 0, 0, 0] []⟩

/-- C4: a queued datagram of peeked length exactly 1 is consumed and
discarded without touching the override buffer, and a lone handshake ping
leaves the engine untouched with no set call; a queued datagram at least as
long as the protocol minimum header size (the length of
`min_state_set_buf`, itself at least 2) always takes the override path,
sizing the full read from the header just peeked. -/
theorem claim_C4_handshake_discrimination (gnb : List Nat → Nat) :
    (∀ (d : List Nat) (rest : List InEvent) (mb ssb : List Nat),
      d.length = 1 → 1 ≤ mb.length →
      drainLoop gnb (InEvent.dgram d none :: rest) mb ssb =
        drainLoop gnb rest (copyInto mb d) ssb) ∧
    (∀ {E G : Type} (api : SimApi E G) (d mb : List Nat) (engine : E),
      d.length = 1 → 1 ≤ mb.length →
      handle_return_message api [InEvent.dgram d none] mb engine =
        .ok ⟨engine, copyInto mb d, [], []⟩) ∧
    (∀ (d : List Nat) (rest : List InEvent) (mb ssb : List Nat),
      2 ≤ mb.length → mb.length ≤ d.length →
      drainLoop gnb (InEvent.dgram d none :: rest) mb ssb =
        drainLoop gnb rest (copyInto mb d)
          (copyInto (List.replicate (gnb (copyInto mb d)) 0) d)) := by
  refine ⟨?_, ?_, ?_⟩
  · intro d rest mb ssb hd hmb
    have hmin : min d.length mb.length = 1 := by omega
    simp [drainLoop, hmin]
  · intro E G api d mb engine hd hmb
    have hmin : min d.length mb.length = 1 := by omega
    unfold handle_return_message
    simp [drainLoop, hmin]
  · intro d rest mb ssb h2 hd
    have hmin : ¬ min d.length mb.length = 1 := by omega
    simp [drainLoop, hmin]

theorem claim_C4_witness :
    drainLoop natApi.get_num_bytes (InEvent.dgram [3] none :: []) [0, 0, 0, 0] [] =
      drainLoop natApi.get_num_bytes [] (copyInto [0, 0, 0, 0] [3]) [] ∧
    handle_return_message natApi [InEvent.dgram [3] none] [0, 0, 0, 0] 0 =
      .ok ⟨0, copyInto [0, 0, 0, 0] [3], [], []⟩ ∧
    drainLoop natApi.get_num_bytes (InEvent.dgram [7, 7, 7, 7, 7] none :: []) [0, 0, 0, 0] [] =
      drainLoop natApi.get_num_bytes [] (copyInto [0, 0, 0, 0] [7, 7, 7, 7, 7])
        (copyInto (List.replicate (natApi.get_num_bytes (copyInto [0, 0, 0, 0] [7, 7, 7, 7, 7])) 0)
          [7, 7, 7, 7, 7]) :=
  have h := claim_C4_handshake_discrimination natApi.get_num_bytes
  ⟨h.1 [3] [] [0, 0, 0, 0] [] rfl (by decide),
   h.2.1 natApi [3] [0, 0, 0, 0] 0 rfl (by decide),
   h.2.2 [7, 7, 7, 7, 7] [] [0, 0, 0, 0] [] (by decide) (by decide)⟩

/-- C10: any queued datagram whose peeked length is not exactly 1 — a
zero-length datagram included — takes the override path: the read size is
the value of the header-length function on the just-peeked buffer, and the
count returned by the consuming receive is ignored, so a datagram shorter
than the header-declared length leaves the unfilled tail of the override
buffer zero, and those zeroes are decoded as part of the override. -/
theorem claim_C10_short_override (gnb : List Nat → Nat) :
    (∀ (d : List Nat) (rest : List InEvent) (mb ssb : List Nat),
      min d.length mb.length ≠ 1 →
      drainLoop gnb (InEvent.dgram d none :: rest) mb ssb =
        drainLoop gnb rest (copyInto mb d)
          (copyInto (List.replicate (gnb (copyInto mb d)) 0) d)) ∧
    (∀ (n : Nat) (d : List Nat), d.length ≤ n →
      copyInto (List.replicate n 0) d = d ++ List.replicate (n - d.length) 0) ∧
    (∀ (rest : List InEvent) (mb ssb : List Nat),
      drainLoop gnb (InEvent.dgram [] none :: rest) mb ssb =
        drainLoop gnb rest mb (List.replicate (gnb mb) 0)) := by
  have hcopy : ∀ (n : Nat) (d : List Nat), d.length ≤ n →
      copyInto (List.replicate n 0) d = d ++ List.replicate (n - d.length) 0 := by
    intro n d hd
    unfold copyInto
    rw [List.length_replicate, List.take_of_length_le hd, List.drop_replicate,
      min_eq_left hd]
  refine ⟨?_, hcopy, ?_⟩
  · intro d rest mb ssb hmin
    simp [drainLoop, hmin]
  · intro rest mb ssb
    have hmin : ¬ min ([] : List Nat).length mb.length = 1 := by simp
    simp only [drainLoop, hmin, if_neg]
    have h0 : copyInto mb [] = mb := by
      unfold copyInto
      simp
    rw [h0, hcopy (gnb mb) [] (Nat.zero_le _)]
    simp

theorem claim_C10_witness :
    drainLoop natApi.get_num_bytes (InEvent.dgram [8, 8] none :: []) [0, 0, 0, 0] [] =
      drainLoop natApi.get_num_bytes [] (copyInto [0, 0, 0, 0] [8, 8])
        (copyInto (List.replicate (natApi.get_num_bytes (copyInto [0, 0, 0, 0] [8, 8])) 0)
          [8, 8]) ∧
    copyInto (List.replicate 5 0) [8, 8] = [8, 8] ++ List.replicate 3 0 ∧
    drainLoop natApi.get_num_bytes (InEvent.dgram [] none :: []) [0, 0, 0, 0] [] =
      drainLoop natApi.get_num_bytes [] [0, 0, 0, 0]
        (List.replicate (natApi.get_num_bytes [0, 0, 0, 0]) 0) :=
  have h := claim_C10_short_override natApi.get_num_bytes
  ⟨h.1 [8, 8] [] [0, 0, 0, 0] [] (by decide),
   by
     have := h.2.1 5 [8, 8] (by decide)
     simpa using this,
   h.2.2 [] [0, 0, 0, 0] []⟩

/-! Helper lemmas about the pacing clock. -/

theorem pacerAfter_itv : ∀ (n : Nat) (p : Pacer), (pacerAfter n p).itv = p.itv
  | 0, _ => rfl
  | n + 1, p => by
    rw [pacerAfter, pacerAfter_itv n (pacerTick p)]
    rfl

theorem pacerAfter_next_time : ∀ (n : Nat) (p : Pacer),
    (pacerAfter n p).next_time = p.next_time + n * p.itv
  | 0, p => by simp [pacerAfter]
  | n + 1, p => by
    rw [pacerAfter, pacerAfter_next_time n (pacerTick p)]
    show p.next_time + p.itv + (n : ℚ) * p.itv = p.next_time + ((n + 1 : Nat) : ℚ) * p.itv
    push_cast
    ring

/-- C3: the pacing clock computes the interval once as
`1 / (120 × speed)`, initializes the deadline to `now + interval`, advances
the deadline after each tick by adding the interval (the deadline after `n`
ticks is `now + (n + 1) × interval`, independent of the times observed in
between, and the interval is never recomputed), and the sleep is skipped
entirely (zero wait) whenever the current time has already reached the
deadline. -/
theorem claim_C3_pacing (speed now : ℚ) (n : Nat) (p : Pacer) (now2 : ℚ)
    (h : p.next_time ≤ now2) :
    pacerInit now 120 speed = ⟨1 / (120 * speed), now + 1 / (120 * speed)⟩ ∧
    (pacerAfter n (pacerInit now 120 speed)).itv = interval 120 speed ∧
    (pacerAfter n (pacerInit now 120 speed)).next_time =
      now + ((n : ℚ) + 1) * interval 120 speed ∧
    wait_time p now2 = 0 := by
  refine ⟨rfl, pacerAfter_itv n _, ?_, ?_⟩
  · rw [pacerAfter_next_time]
    show now + interval 120 speed + (n : ℚ) * interval 120 speed = _
    ring
  · unfold wait_time
    rw [max_eq_right (sub_nonpos.mpr h)]

theorem claim_C3_witness :
    pacerInit 0 120 1 = ⟨1 / (120 * 1), 0 + 1 / (120 * 1)⟩ ∧
    (pacerAfter 2 (pacerInit 0 120 1)).itv = interval 120 1 ∧
    (pacerAfter 2 (pacerInit 0 120 1)).next_time =
      0 + (((2 : Nat) : ℚ) + 1) * interval 120 1 ∧
    wait_time ⟨1, 3⟩ 3 = 0 :=
  claim_C3_pacing 1 0 2 ⟨1, 3⟩ 3 (le_refl 3)

/-! Helper lemmas about the byte codec. -/

theorem wordsToBytes_append (a b : List Nat) :
    wordsToBytes (a ++ b) = wordsToBytes a ++ wordsToBytes b := by
  induction a with
  | nil => rfl
  | cons w ws ih => simp [wordsToBytes, ih]

theorem bytesToWords_wordsToBytes : ∀ ws : List Nat, (∀ w ∈ ws, w < 4294967296) →
    bytesToWords (wordsToBytes ws) = ws := by
  intro ws
  induction ws with
  | nil => intro _; rfl
  | cons w ws ih =>
    intro h
    have hw : w < 4294967296 := h w (List.mem_cons_self w ws)
    have hrec := ih (fun x hx => h x (List.mem_cons_of_mem _ hx))
    show bytesToWords (wordToBytes w ++ wordsToBytes ws) = w :: ws
    simp only [wordToBytes, List.cons_append, List.nil_append]
    show (w % 256 + 256 * (w / 256 % 256) + 65536 * (w / 65536 % 256) +
        16777216 * (w / 16777216 % 256)) :: bytesToWords (wordsToBytes ws) = w :: ws
    rw [hrec]
    congr 1
    omega

theorem decodeCars_flatten : ∀ cars : List CarInfo,
    decodeCars cars.length (cars.map CarInfo.toWords).flatten = cars := by
  intro cars
  induction cars with
  | nil => rfl
  | cons c cs ih =>
    obtain ⟨cid, ⟨px, py, pz⟩, ⟨vx, vy, vz⟩, ⟨ax, ay, az⟩⟩ := c
    simp only [List.map_cons, List.flatten_cons, List.length_cons, CarInfo.toWords,
      List.cons_append, List.nil_append]
    show (⟨cid, ⟨px, py, pz⟩, ⟨vx, vy, vz⟩, ⟨ax, ay, az⟩⟩ : CarInfo) ::
        decodeCars cs.length (cs.map CarInfo.toWords).flatten = _
    rw [ih]

/-- C7: the codec is a lossless round-trip — decoding the bytes produced by
encoding any well-formed BallState or GameState (every 32-bit field a valid
bit pattern) recovers a value whose 32-bit fields are bit-identical to the
original (fields are modelled as their bit patterns, so bit-identity is
equality). -/
theorem claim_C7_roundtrip :
    (∀ b : BallState, b.wf → BallState.from_bytes (BallState.to_bytes b) = b) ∧
    (∀ g : GameState, g.wf → GameState.from_bytes (GameState.to_bytes g) = g) := by
  have hballwords : ∀ b : BallState, b.wf →
      bytesToWords (BallState.to_bytes b) =
        [b.pos.x, b.pos.y, b.pos.z, b.vel.x, b.vel.y, b.vel.z,
         b.ang_vel.x, b.ang_vel.y, b.ang_vel.z] := by
    intro b hb
    obtain ⟨⟨h1, h2, h3⟩, ⟨h4, h5, h6⟩, ⟨h7, h8, h9⟩⟩ := hb
    apply bytesToWords_wordsToBytes
    intro w hw
    simp only [List.mem_cons, List.not_mem_nil, or_false] at hw
    rcases hw with rfl | rfl | rfl | rfl | rfl | rfl | rfl | rfl | rfl <;> assumption
  constructor
  · intro b hb
    obtain ⟨⟨px, py, pz⟩, ⟨vx, vy, vz⟩, ⟨ax, ay, az⟩⟩ := b
    unfold BallState.from_bytes
    rw [hballwords _ hb]
  · intro g hg
    obtain ⟨hb, hn, hc⟩ := hg
    obtain ⟨⟨⟨px, py, pz⟩, ⟨vx, vy, vz⟩, ⟨ax, ay, az⟩⟩, cars⟩ := g
    obtain ⟨⟨h1, h2, h3⟩, ⟨h4, h5, h6⟩, ⟨h7, h8, h9⟩⟩ := hb
    have henc : GameState.to_bytes ⟨⟨⟨px, py, pz⟩, ⟨vx, vy, vz⟩, ⟨ax, ay, az⟩⟩, cars⟩ =
        wordsToBytes (cars.length :: px :: py :: pz :: vx :: vy :: vz :: ax :: ay :: az ::
          (cars.map CarInfo.toWords).flatten) := by
      simp [GameState.to_bytes, BallState.to_bytes, wordsToBytes, List.append_assoc]
    have hbound : ∀ w ∈ cars.length :: px :: py :: pz :: vx :: vy :: vz :: ax :: ay :: az ::
        (cars.map CarInfo.toWords).flatten, w < 4294967296 := by
      intro w hw
      simp only [List.mem_cons] at hw
      rcases hw with rfl | rfl | rfl | rfl | rfl | rfl | rfl | rfl | rfl | rfl | hmem
      · exact hn
      · exact h1
      · exact h2
      · exact h3
      · exact h4
      · exact h5
      · exact h6
      · exact h7
      · exact h8
      · exact h9
      · obtain ⟨l, hl, hwl⟩ := List.mem_flatten.1 hmem
        obtain ⟨c, hc2, rfl⟩ := List.mem_map.1 hl
        obtain ⟨hid, ⟨g1, g2, g3⟩, ⟨g4, g5, g6⟩, ⟨g7, g8, g9⟩⟩ := hc c hc2
        simp only [CarInfo.toWords, List.mem_cons, List.not_mem_nil, or_false] at hwl
        rcases hwl with rfl | rfl | rfl | rfl | rfl | rfl | rfl | rfl | rfl | rfl <;> assumption
    unfold GameState.from_bytes
    rw [henc, bytesToWords_wordsToBytes _ hbound]
    show (⟨⟨⟨px, py, pz⟩, ⟨vx, vy, vz⟩, ⟨ax, ay, az⟩⟩,
      decodeCars cars.length (cars.map CarInfo.toWords).flatten⟩ : GameState) = _
    rw [decodeCars_flatten]

theorem claim_C7_witness :
    BallState.from_bytes (BallState.to_bytes ⟨⟨1, 2, 3⟩, ⟨4, 5, 6⟩, ⟨7, 8, 9⟩⟩) =
      ⟨⟨1, 2, 3⟩, ⟨4, 5, 6⟩, ⟨7, 8, 9⟩⟩ ∧
    GameState.from_bytes (GameState.to_bytes
        ⟨⟨⟨1, 2, 3⟩, ⟨4, 5, 6⟩, ⟨7, 8, 9⟩⟩, [⟨6, ⟨10, 11, 12⟩, ⟨13, 14, 15⟩, ⟨16, 17, 18⟩⟩]⟩) =
      ⟨⟨⟨1, 2, 3⟩, ⟨4, 5, 6⟩, ⟨7, 8, 9⟩⟩, [⟨6, ⟨10, 11, 12⟩, ⟨13, 14, 15⟩, ⟨16, 17, 18⟩⟩]⟩ :=
  ⟨claim_C7_roundtrip.1 ⟨⟨1, 2, 3⟩, ⟨4, 5, 6⟩, ⟨7, 8, 9⟩⟩ (by decide),
   claim_C7_roundtrip.2
     ⟨⟨⟨1, 2, 3⟩, ⟨4, 5, 6⟩, ⟨7, 8, 9⟩⟩, [⟨6, ⟨10, 11, 12⟩, ⟨13, 14, 15⟩, ⟨16, 17, 18⟩⟩]⟩
     (by decide)⟩

/-! Helper lemmas about the recording format. -/

theorem wordsToBytes_length : ∀ ws : List Nat, (wordsToBytes ws).length = 4 * ws.length := by
  intro ws
  induction ws with
  | nil => rfl
  | cons w l ih =>
    simp only [wordsToBytes, wordToBytes, List.length_append, List.length_cons,
      List.length_nil, ih]
    omega

theorem write_ball_length (b : BallState) (t : Nat) : (write_ball b t).length = 40 := by
  rw [write_ball, wordsToBytes_length]
  rfl

theorem flatten_map_const_length (f : Nat → List Nat) (h : ∀ k, (f k).length = 40) :
    ∀ l : List Nat, ((l.map f).flatten).length = 40 * l.length := by
  intro l
  induction l with
  | nil => rfl
  | cons a t ih =>
    simp only [List.map_cons, List.flatten_cons, List.length_append, List.length_cons, ih, h a]
    omega

/-- C8: the recording utility writes a little-endian 2-byte record count
followed by exactly that many fixed-size 40-byte records (time, then
position, velocity and angular velocity as three 32-bit floats each,
little-endian) with no separators; with `NUM_TICKS = 60` the count is 61 and
the file is exactly 2 + 61 × 40 = 2442 bytes. -/
theorem claim_C8_recording (ball : Nat → BallState) (time : Nat → Nat) :
    dump_ball_file ball time =
      u16ToBytes 61 ++ (write_ball (ball 0) 0 ::
        ((List.range NUM_TICKS).map fun k => write_ball (ball (k + 1)) (time (k + 1)))).flatten ∧
    u16ToBytes 61 = [61, 0] ∧
    (write_ball (ball 0) 0 ::
      ((List.range NUM_TICKS).map fun k => write_ball (ball (k + 1)) (time (k + 1)))).length =
        61 ∧
    (∀ (b : BallState) (t : Nat), (write_ball b t).length = 40) ∧
    (dump_ball_file ball time).length = 2442 := by
  refine ⟨?_, rfl, ?_, fun b t => write_ball_length b t, ?_⟩
  · unfold dump_ball_file
    simp [NUM_TICKS, List.append_assoc]
  · simp [NUM_TICKS]
  · unfold dump_ball_file
    rw [List.length_append, List.length_append,
      flatten_map_const_length (fun k => write_ball (ball (k + 1)) (time (k + 1)))
        (fun k => write_ball_length _ _) (List.range NUM_TICKS),
      write_ball_length, List.length_range]
    rfl

theorem claim_C8_witness :
    (dump_ball_file (fun _ => ⟨⟨1, 2, 3⟩, ⟨4, 5, 6⟩, ⟨7, 8, 9⟩⟩) (fun k => k)).length = 2442 :=
  (claim_C8_recording (fun _ => ⟨⟨1, 2, 3⟩, ⟨4, 5, 6⟩, ⟨7, 8, 9⟩⟩) (fun k => k)).2.2.2.2
